import Mathlib

/-!
# ad-router — verification of the natural-language specification

Shallow embedding of the core of the `issj6/ad-router` relay (Python/FastAPI)
and proofs about the claims of its specification.

Python strings that the code manipulates byte-wise (query values, percent
encoding, hash inputs) are modelled as `List ℕ` of byte values; timestamps and
HTTP status codes as `ℤ`; Python `float` arithmetic on throttle rates as exact
rationals `ℚ`; Python `dict.get` defaulting as `Option` with `getD`.
-/

namespace AdRouter

/-! ## Percent encoding (`app/mapping_dsl.py`)

`url_encode()` is `urllib.parse.quote(str(val), safe="")`; `normalize_encode()`
repeatedly `urllib.parse.unquote`s until a fixed point and then quotes once.
We model both at the byte level: `quote` keeps exactly the bytes that
`urllib.parse.quote` never escapes (ALPHA / DIGIT / `-` `.` `_` `~`, since
`safe=""`) and escapes every other byte as `%XX` with uppercase hex digits;
`unquote` decodes every `%` followed by two hex digits and leaves an invalid
`%` in place, which agrees with `urllib.parse.unquote`'s split-and-decode
behaviour on byte strings. -/

/-- Bytes never escaped by `urllib.parse.quote(..., safe="")`:
`A-Z a-z 0-9 - . _ ~`. -/
def isSafeByte (b : ℕ) : Bool :=
  (decide (48 ≤ b) && decide (b ≤ 57)) ||
  (decide (65 ≤ b) && decide (b ≤ 90)) ||
  (decide (97 ≤ b) && decide (b ≤ 122)) ||
  decide (b = 45) || decide (b = 46) || decide (b = 95) || decide (b = 126)

/-- Uppercase hex digit byte for a value `d < 16` (as `quote` emits). -/
def hexDigit (d : ℕ) : ℕ := if d < 10 then 48 + d else 55 + d

/-- Percent-escape one byte: safe bytes pass through, others become `%XX`. -/
def encodeByte (b : ℕ) : List ℕ :=
  if isSafeByte b then [b] else [37, hexDigit (b / 16), hexDigit (b % 16)]

/-- `urllib.parse.quote(s, safe="")` on a byte string. -/
def quote (s : List ℕ) : List ℕ := s.flatMap encodeByte

/-- Is this byte an ASCII hex digit (`0-9 A-F a-f`)? -/
def isHexDigitByte (c : ℕ) : Bool :=
  (decide (48 ≤ c) && decide (c ≤ 57)) ||
  (decide (65 ≤ c) && decide (c ≤ 70)) ||
  (decide (97 ≤ c) && decide (c ≤ 102))

/-- Value of an ASCII hex digit byte. -/
def hexVal (c : ℕ) : ℕ :=
  if 48 ≤ c ∧ c ≤ 57 then c - 48
  else if 65 ≤ c ∧ c ≤ 70 then c - 55
  else if 97 ≤ c ∧ c ≤ 102 then c - 87
  else 0

/-- `urllib.parse.unquote` on a byte string: every `%XX` with two hex digits
becomes the byte `XX`; a `%` not followed by two hex digits stays. -/
def unquote : List ℕ → List ℕ
  | [] => []
  | 37 :: h1 :: h2 :: rest =>
      if isHexDigitByte h1 && isHexDigitByte h2 then
        (hexVal h1 * 16 + hexVal h2) :: unquote rest
      else
        37 :: unquote (h1 :: h2 :: rest)
  | c :: rest => c :: unquote rest

/-- The decode loop of `normalize_encode()`: `unquote` until a fixed point,
with enough fuel to always reach it (each productive step shortens the
string, see `unquote_length_lt`). -/
def normDecode : ℕ → List ℕ → List ℕ
  | 0, s => s
  | fuel + 1, s =>
      let u := unquote s
      if u = s then s else normDecode fuel u

/-- `normalize_encode()` from `_apply_function`: repeatedly percent-decode to
a fixed point, then percent-encode once. -/
def normalizeEncodeBytes (s : List ℕ) : List ℕ :=
  quote (normDecode (s.length + 1) s)

/-- `url_encode()` from `_apply_function`. -/
def urlEncodeBytes (s : List ℕ) : List ℕ := quote s

/-! ### Lemmas about `quote`/`unquote` -/

theorem unquote_cons_notper (c : ℕ) (rest : List ℕ)
    (h : ∀ h1 h2 t, c = 37 → rest = h1 :: h2 :: t → False) :
    unquote (c :: rest) = c :: unquote rest := by
  rw [unquote.eq_def]
  split
  · simp_all
  · rename_i h1 h2 t heq
    exact absurd rfl (fun (_ : (37:ℕ) = 37) =>
      h h1 h2 t (by injection heq) (by injection heq))
  · rename_i c2 rest2 _ heq
    injection heq with e1 e2
    rw [e1, e2]

theorem unquote_length_le (s : List ℕ) : (unquote s).length ≤ s.length := by
  induction s using unquote.induct with
  | case1 => simp [unquote]
  | case2 h1 h2 rest hhex ih =>
      simp only [unquote, hhex, if_true, List.length_cons]
      simpa using by omega
  | case3 h1 h2 rest hhex ih =>
      simp only [unquote, hhex, if_false, List.length_cons]
      simp at ih ⊢
      omega
  | case4 c rest hne ih =>
      rw [unquote_cons_notper c rest hne]
      simpa using ih

theorem unquote_length_lt (s : List ℕ) (h : unquote s ≠ s) :
    (unquote s).length < s.length := by
  induction s using unquote.induct with
  | case1 => simp [unquote] at h
  | case2 h1 h2 rest hhex ih =>
      simp only [unquote, hhex, if_true, List.length_cons]
      have := unquote_length_le rest
      simp
      omega
  | case3 h1 h2 rest hhex ih =>
      simp only [unquote, hhex, if_false] at h ⊢
      have hne : unquote (h1 :: h2 :: rest) ≠ h1 :: h2 :: rest := by
        intro e
        exact h (by simp [e])
      have := ih hne
      simp at this ⊢
      omega
  | case4 c rest hne ih =>
      rw [unquote_cons_notper c rest hne] at h ⊢
      have hne2 : unquote rest ≠ rest := by
        intro e
        exact h (by simp [e])
      have := ih hne2
      simp
      omega

theorem hexVal_lt_16 (c : ℕ) : hexVal c < 16 := by
  unfold hexVal
  split
  · omega
  · split
    · omega
    · split <;> omega

/-- Decoding never produces a byte ≥ 256 when the input has none. -/
theorem unquote_bytes_lt (s : List ℕ) (h : ∀ b ∈ s, b < 256) :
    ∀ b ∈ unquote s, b < 256 := by
  induction s using unquote.induct with
  | case1 => simp [unquote]
  | case2 h1 h2 rest hhex ih =>
      simp only [unquote, hhex, if_true]
      intro b hb
      rcases List.mem_cons.mp hb with hb | hb
      · have v1 := hexVal_lt_16 h1
        have v2 := hexVal_lt_16 h2
        omega
      · exact ih (fun x hx => h x (by simp [hx])) b hb
  | case3 h1 h2 rest hhex ih =>
      simp only [unquote, hhex, if_false]
      intro b hb
      rcases List.mem_cons.mp hb with hb | hb
      · omega
      · exact ih (fun x hx => h x (by simp at hx ⊢; tauto)) b hb
  | case4 c rest hne ih =>
      rw [unquote_cons_notper c rest hne]
      intro b hb
      rcases List.mem_cons.mp hb with hb | hb
      · exact hb ▸ h c (by simp)
      · exact ih (fun x hx => h x (by simp [hx])) b hb

theorem isHexDigitByte_hexDigit (d : ℕ) (h : d < 16) :
    isHexDigitByte (hexDigit d) = true := by
  unfold hexDigit isHexDigitByte
  split <;> simp <;> omega

theorem hexVal_hexDigit (d : ℕ) (h : d < 16) : hexVal (hexDigit d) = d := by
  unfold hexDigit hexVal
  split
  · rw [if_pos (by omega)]
    omega
  · rw [if_neg (by omega), if_pos (by omega)]
    omega

theorem isSafeByte_ne_37 (b : ℕ) (h : isSafeByte b = true) : b ≠ 37 := by
  intro e
  subst e
  simp [isSafeByte] at h

/-- Round trip: decoding an encoded byte string gives back the original. -/
theorem unquote_quote (s : List ℕ) (h : ∀ b ∈ s, b < 256) :
    unquote (quote s) = s := by
  induction s with
  | nil => rfl
  | cons b rest ih =>
      have hb : b < 256 := h b (by simp)
      have hrest : ∀ x ∈ rest, x < 256 := fun x hx => h x (by simp [hx])
      show unquote (quote (b :: rest)) = b :: rest
      rw [quote, List.flatMap_cons]
      by_cases hsafe : isSafeByte b
      · rw [encodeByte, if_pos hsafe, List.singleton_append]
        rw [unquote_cons_notper b _
          (fun _ _ _ hc _ => (isSafeByte_ne_37 b hsafe) hc)]
        rw [show rest.flatMap encodeByte = quote rest from rfl, ih hrest]
      · rw [encodeByte, if_neg hsafe]
        have h1 : b / 16 < 16 := by omega
        have h2 : b % 16 < 16 := Nat.mod_lt _ (by norm_num)
        simp only [List.cons_append, List.nil_append, unquote,
          isHexDigitByte_hexDigit _ h1, isHexDigitByte_hexDigit _ h2,
          Bool.and_self, if_true, hexVal_hexDigit _ h1, hexVal_hexDigit _ h2]
        show (b / 16 * 16 + b % 16) :: unquote (quote rest) = b :: rest
        rw [ih hrest]
        congr 1
        omega

/-- Every byte emitted by `quote` is a real byte when the input bytes are. -/
theorem quote_bytes_lt (s : List ℕ) (h : ∀ b ∈ s, b < 256) :
    ∀ b ∈ quote s, b < 256 := by
  intro b hb
  rw [quote, List.mem_flatMap] at hb
  obtain ⟨a, ha, hb⟩ := hb
  have hab : a < 256 := h a ha
  unfold encodeByte at hb
  split at hb
  · simp at hb
    omega
  · have e1 : hexDigit (a / 16) < 256 := by unfold hexDigit; split <;> omega
    have e2 : hexDigit (a % 16) < 256 := by unfold hexDigit; split <;> omega
    simp at hb
    rcases hb with hb | hb | hb <;> omega

/-- With fuel exceeding the string length, the decode loop reaches a true
fixed point of `unquote` (each productive pass strictly shrinks the string,
mirroring the termination of the `while True` loop in `normalize_encode`). -/
theorem unquote_normDecode (fuel : ℕ) (s : List ℕ) (h : s.length < fuel) :
    unquote (normDecode fuel s) = normDecode fuel s := by
  induction fuel generalizing s with
  | zero => omega
  | succ f ih =>
      simp only [normDecode]
      by_cases he : unquote s = s
      · simp [he]
      · rw [if_neg he]
        exact ih (unquote s) (by have := unquote_length_lt s he; omega)

theorem normDecode_of_fix (fuel : ℕ) (s : List ℕ) (h : unquote s = s) :
    normDecode fuel s = s := by
  cases fuel with
  | zero => rfl
  | succ f => simp [normDecode, h]

theorem normDecode_bytes_lt (fuel : ℕ) (s : List ℕ) (h : ∀ b ∈ s, b < 256) :
    ∀ b ∈ normDecode fuel s, b < 256 := by
  induction fuel generalizing s with
  | zero => exact h
  | succ f ih =>
      rw [normDecode]
      by_cases he : unquote s = s
      · simpa [he] using h
      · simpa [he] using ih (unquote s) (unquote_bytes_lt s h)

/-- Core of claim C8 as amended: `normalize_encode` is idempotent. -/
theorem normalizeEncodeBytes_idem (s : List ℕ) (h : ∀ b ∈ s, b < 256) :
    normalizeEncodeBytes (normalizeEncodeBytes s) = normalizeEncodeBytes s := by
  unfold normalizeEncodeBytes
  set d := normDecode (s.length + 1) s with hd
  have hfix : unquote d = d := unquote_normDecode _ s (by omega)
  have hdb : ∀ b ∈ d, b < 256 := normDecode_bytes_lt _ s h
  have hround : unquote (quote d) = quote d ∨ normDecode ((quote d).length + 1) (quote d) = d := by
    by_cases he : unquote (quote d) = quote d
    · exact Or.inl he
    · refine Or.inr ?_
      rw [normDecode]
      simp only [unquote_quote d hdb] at he ⊢
      rw [if_neg he]
      exact normDecode_of_fix _ d hfix
  rcases hround with he | he
  · have hqd : quote d = d := (he.symm.trans (unquote_quote d hdb))
    rw [normDecode_of_fix _ _ he, hqd]
    exact hqd
  · rw [he]

/-! ## MD5 (`hashlib.md5`, used by `calculate_throttle_score` and `hash_md5()`)

Byte-level implementation of RFC 1321 over `List ℕ`, with all 32-bit
arithmetic carried out in `ℕ` modulo `2^32`. -/

/-- Rotate a 32-bit word left by `s` bits. -/
def rotl32 (x s : ℕ) : ℕ := ((x <<< s) ||| (x >>> (32 - s))) % 4294967296

/-- The 64 MD5 sine-derived constants `K[t] = floor(2^32·|sin(t+1)|)`. -/
def md5K : List ℕ :=
  [0xd76aa478, 0xe8c7b756, 0x242070db, 0xc1bdceee,
   0xf57c0faf, 0x4787c62a, 0xa8304613, 0xfd469501,
   0x698098d8, 0x8b44f7af, 0xffff5bb1, 0x895cd7be,
   0x6b901122, 0xfd987193, 0xa679438e, 0x49b40821,
   0xf61e2562, 0xc040b340, 0x265e5a51, 0xe9b6c7aa,
   0xd62f105d, 0x02441453, 0xd8a1e681, 0xe7d3fbc8,
   0x21e1cde6, 0xc33707d6, 0xf4d50d87, 0x455a14ed,
   0xa9e3e905, 0xfcefa3f8, 0x676f02d9, 0x8d2a4c8a,
   0xfffa3942, 0x8771f681, 0x6d9d6122, 0xfde5380c,
   0xa4beea44, 0x4bdecfa9, 0xf6bb4b60, 0xbebfbc70,
   0x289b7ec6, 0xeaa127fa, 0xd4ef3085, 0x04881d05,
   0xd9d4d039, 0xe6db99e5, 0x1fa27cf8, 0xc4ac5665,
   0xf4292244, 0x432aff97, 0xab9423a7, 0xfc93a039,
   0x655b59c3, 0x8f0ccc92, 0xffeff47d, 0x85845dd1,
   0x6fa87e4f, 0xfe2ce6e0, 0xa3014314, 0x4e0811a1,
   0xf7537e82, 0xbd3af235, 0x2ad7d2bb, 0xeb86d391]

/-- The 64 per-round left-rotation amounts. -/
def md5S : List ℕ :=
  [7, 12, 17, 22, 7, 12, 17, 22, 7, 12, 17, 22, 7, 12, 17, 22,
   5, 9, 14, 20, 5, 9, 14, 20, 5, 9, 14, 20, 5, 9, 14, 20,
   4, 11, 16, 23, 4, 11, 16, 23, 4, 11, 16, 23, 4, 11, 16, 23,
   6, 10, 15, 21, 6, 10, 15, 21, 6, 10, 15, 21, 6, 10, 15, 21]

/-- Little-endian serialisation of `n mod 2^64` as 8 bytes. -/
def le8Bytes (n : ℕ) : List ℕ := (List.range 8).map (fun i => n / 256 ^ i % 256)

/-- Little-endian serialisation of a 32-bit word as 4 bytes. -/
def le4Bytes (n : ℕ) : List ℕ := [n % 256, n / 256 % 256, n / 65536 % 256, n / 16777216 % 256]

/-- MD5 padding: append `0x80`, zero-fill to 56 mod 64, append the bit
length as a little-endian 64-bit quantity. -/
def md5Pad (msg : List ℕ) : List ℕ :=
  msg ++ [128] ++ List.replicate ((119 - msg.length % 64) % 64) 0 ++ le8Bytes (msg.length * 8)

/-- Word `j` (0..15) of 64-byte block `i`, read little-endian. -/
def md5Word (p : List ℕ) (i j : ℕ) : ℕ :=
  p.getD (64 * i + 4 * j) 0 + 256 * p.getD (64 * i + 4 * j + 1) 0 +
    65536 * p.getD (64 * i + 4 * j + 2) 0 + 16777216 * p.getD (64 * i + 4 * j + 3) 0

/-- The round-dependent MD5 mixing function (F/G/H/I). -/
def md5F (t b c d : ℕ) : ℕ :=
  if t < 16 then (b &&& c) ||| ((4294967295 ^^^ b) &&& d)
  else if t < 32 then (d &&& b) ||| ((4294967295 ^^^ d) &&& c)
  else if t < 48 then b ^^^ c ^^^ d
  else c ^^^ (b ||| (4294967295 ^^^ d))

/-- Message-word index used in round `t`. -/
def md5G (t : ℕ) : ℕ :=
  if t < 16 then t
  else if t < 32 then (5 * t + 1) % 16
  else if t < 48 then (3 * t + 5) % 16
  else (7 * t) % 16

/-- One MD5 round on the state `(a, b, c, d)`. -/
def md5Round (w : ℕ → ℕ) (st : ℕ × ℕ × ℕ × ℕ) (t : ℕ) : ℕ × ℕ × ℕ × ℕ :=
  let (a, b, c, d) := st
  let f := (a + md5F t b c d + md5K.getD t 0 + w (md5G t)) % 4294967296
  (d, (b + rotl32 f (md5S.getD t 0)) % 4294967296, b, c)

/-- Process 64-byte block `i` of the padded message. -/
def md5Block (p : List ℕ) (st : ℕ × ℕ × ℕ × ℕ) (i : ℕ) : ℕ × ℕ × ℕ × ℕ :=
  let (a, b, c, d) := st
  let (a2, b2, c2, d2) := (List.range 64).foldl (md5Round (md5Word p i)) st
  ((a + a2) % 4294967296, (b + b2) % 4294967296,
   (c + c2) % 4294967296, (d + d2) % 4294967296)

/-- The MD5 digest (16 bytes) of a byte string. -/
def md5 (msg : List ℕ) : List ℕ :=
  let p := md5Pad msg
  let st := (List.range (p.length / 64)).foldl (md5Block p)
    (0x67452301, 0xefcdab89, 0x98badcfe, 0x10325476)
  le4Bytes st.1 ++ le4Bytes st.2.1 ++ le4Bytes st.2.2.1 ++ le4Bytes st.2.2.2

/-! ## SHA-256 (`hashlib.sha256`, used by `hash_sha256()`) -/

/-- Rotate a 32-bit word right by `s` bits. -/
def rotr32 (x s : ℕ) : ℕ := ((x >>> s) ||| (x <<< (32 - s))) % 4294967296

/-- The 64 SHA-256 round constants (fractional parts of the cube roots of
the first 64 primes), written in decimal. -/
def sha256K : List ℕ :=
  [1116352408, 1899447441, 3049323471, 3921009573, 961987163, 1508970993,
   2453635748, 2870763221, 3624381080, 310598401, 607225278, 1426881987,
   1925078388, 2162078206, 2614888103, 3248222580, 3835390401, 4022224774,
   264347078, 604807628, 770255983, 1249150122, 1555081692, 1996064986,
   2554220882, 2821834349, 2952996808, 3210313671, 3336571891, 3584528711,
   113926993, 338241895, 666307205, 773529912, 1294757372, 1396182291,
   1695183700, 1986661051, 2177026350, 2456956037, 2730485921, 2820302411,
   3259730800, 3345764771, 3516065817, 3600352804, 4094571909, 275423344,
   430227734, 506948616, 659060556, 883997877, 958139571, 1322822218,
   1537002063, 1747873779, 1955562222, 2024104815, 2227730452, 2361852424,
   2428436474, 2756734187, 3204031479, 3329325298]

/-- Big-endian serialisation of `n mod 2^64` as 8 bytes. -/
def be8Bytes (n : ℕ) : List ℕ := (List.range 8).map (fun i => n / 256 ^ (7 - i) % 256)

/-- Big-endian serialisation of a 32-bit word as 4 bytes. -/
def be4Bytes (n : ℕ) : List ℕ := [n / 16777216 % 256, n / 65536 % 256, n / 256 % 256, n % 256]

/-- SHA-256 padding (identical layout to MD5 but big-endian length). -/
def sha256Pad (msg : List ℕ) : List ℕ :=
  msg ++ [128] ++ List.replicate ((119 - msg.length % 64) % 64) 0 ++ be8Bytes (msg.length * 8)

/-- Word `j` (0..15) of 64-byte block `i`, read big-endian. -/
def sha256Word (p : List ℕ) (i j : ℕ) : ℕ :=
  16777216 * p.getD (64 * i + 4 * j) 0 + 65536 * p.getD (64 * i + 4 * j + 1) 0 +
    256 * p.getD (64 * i + 4 * j + 2) 0 + p.getD (64 * i + 4 * j + 3) 0

/-- The 64-entry message schedule of block `i`. -/
def sha256Schedule (p : List ℕ) (i : ℕ) : List ℕ :=
  (List.range 64).foldl
    (fun ws j =>
      if j < 16 then ws ++ [sha256Word p i j]
      else
        let s0 := rotr32 (ws.getD (j - 15) 0) 7 ^^^ rotr32 (ws.getD (j - 15) 0) 18 ^^^
          (ws.getD (j - 15) 0 >>> 3)
        let s1 := rotr32 (ws.getD (j - 2) 0) 17 ^^^ rotr32 (ws.getD (j - 2) 0) 19 ^^^
          (ws.getD (j - 2) 0 >>> 10)
        ws ++ [(ws.getD (j - 16) 0 + s0 + ws.getD (j - 7) 0 + s1) % 4294967296]) []

/-- Eight 32-bit working registers. -/
structure Sha256State where
  a : ℕ
  b : ℕ
  c : ℕ
  d : ℕ
  e : ℕ
  f : ℕ
  g : ℕ
  h : ℕ

/-- One SHA-256 compression round. -/
def sha256Round (w : List ℕ) (st : Sha256State) (t : ℕ) : Sha256State :=
  let s1 := rotr32 st.e 6 ^^^ rotr32 st.e 11 ^^^ rotr32 st.e 25
  let ch := (st.e &&& st.f) ^^^ ((4294967295 ^^^ st.e) &&& st.g)
  let t1 := (st.h + s1 + ch + sha256K.getD t 0 + w.getD t 0) % 4294967296
  let s0 := rotr32 st.a 2 ^^^ rotr32 st.a 13 ^^^ rotr32 st.a 22
  let mj := (st.a &&& st.b) ^^^ (st.a &&& st.c) ^^^ (st.b &&& st.c)
  let t2 := (s0 + mj) % 4294967296
  ⟨(t1 + t2) % 4294967296, st.a, st.b, st.c, (st.d + t1) % 4294967296, st.e, st.f, st.g⟩

/-- Process 64-byte block `i` of the padded message. -/
def sha256Block (p : List ℕ) (st : Sha256State) (i : ℕ) : Sha256State :=
  let w := sha256Schedule p i
  let r := (List.range 64).foldl (sha256Round w) st
  ⟨(st.a + r.a) % 4294967296, (st.b + r.b) % 4294967296, (st.c + r.c) % 4294967296,
   (st.d + r.d) % 4294967296, (st.e + r.e) % 4294967296, (st.f + r.f) % 4294967296,
   (st.g + r.g) % 4294967296, (st.h + r.h) % 4294967296⟩

/-- The SHA-256 digest (32 bytes) of a byte string. -/
def sha256 (msg : List ℕ) : List ℕ :=
  let p := sha256Pad msg
  let st := (List.range (p.length / 64)).foldl (sha256Block p)
    ⟨1779033703, 3144134277, 1013904242, 2773480762,
     1359893119, 2600822924, 528734635, 1541459225⟩
  be4Bytes st.a ++ be4Bytes st.b ++ be4Bytes st.c ++ be4Bytes st.d ++
    be4Bytes st.e ++ be4Bytes st.f ++ be4Bytes st.g ++ be4Bytes st.h

/-! ## Pipeline stages (`_apply_function` in `app/mapping_dsl.py`)

Values flowing through a pipeline are modelled by `PyVal`: Python `None` or a
(byte) string — the two shapes the stages distinguish (`if val is not None`,
then `str(val)`). -/

/-- UTF-8 code points of an ASCII literal as bytes. -/
def bytesOf (s : String) : List ℕ := s.data.map Char.toNat

/-- ASCII whitespace, as stripped by Python's `str.strip()`. -/
def isPySpace (b : ℕ) : Bool :=
  decide (b = 32) || decide (b = 9) || decide (b = 10) ||
  decide (b = 13) || decide (b = 11) || decide (b = 12)

/-- Python `str.strip()` on a byte string. -/
def pyStrip (s : List ℕ) : List ℕ :=
  ((s.dropWhile isPySpace).reverse.dropWhile isPySpace).reverse

/-- Python `str.upper()` on an ASCII byte. -/
def toUpperByte (b : ℕ) : ℕ := if 97 ≤ b ∧ b ≤ 122 then b - 32 else b

/-- Python `str.lower()` on an ASCII byte. -/
def toLowerByte (b : ℕ) : ℕ := if 65 ≤ b ∧ b ≤ 90 then b + 32 else b

/-- Lowercase hex digit byte (as Python `.hexdigest()` emits). -/
def lowHexDigit (d : ℕ) : ℕ := if d < 10 then 48 + d else 87 + d

/-- Lowercase hex rendering of a digest. -/
def toHexBytes (l : List ℕ) : List ℕ :=
  l.flatMap (fun b => [lowHexDigit (b / 16), lowHexDigit (b % 16)])

/-- `hashlib.md5(x).hexdigest()`. -/
def md5Hex (s : List ℕ) : List ℕ := toHexBytes (md5 s)

/-- `hashlib.sha256(x).hexdigest()`. -/
def sha256Hex (s : List ℕ) : List ℕ := toHexBytes (sha256 s)

/-- A Python value reaching a pipeline stage: `None` or a string. -/
inductive PyVal where
  | none : PyVal
  | str : List ℕ → PyVal
deriving DecidableEq

/-- Python `str(val)` for the values we model (only applied when
`val is not None` in the stages below; `str(None) = "None"`). -/
def pyToStr : PyVal → List ℕ
  | .none => bytesOf "None"
  | .str s => s

/-- `_apply_function(val, fn)` from `app/mapping_dsl.py`: dispatch on the
stripped stage token, with `None` passed through by every stage (and any
unknown token returning the value unchanged). -/
def applyFunction (val : PyVal) (fn : List ℕ) : PyVal :=
  let fn := pyStrip fn
  if fn = bytesOf "to_upper()" then
    match val with
    | .none => .none
    | .str s => .str (s.map toUpperByte)
  else if fn = bytesOf "to_lower()" then
    match val with
    | .none => .none
    | .str s => .str (s.map toLowerByte)
  else if fn = bytesOf "url_encode()" then
    match val with
    | .none => .none
    | .str s => .str (urlEncodeBytes s)
  else if fn = bytesOf "normalize_encode()" then
    match val with
    | .none => .none
    | .str s => .str (normalizeEncodeBytes s)
  else if fn = bytesOf "trim()" then
    match val with
    | .none => .none
    | .str s => .str (pyStrip s)
  else if List.isPrefixOf (bytesOf "date_format(") fn then
    -- `date_format('%s')` emits `str(val)` unchanged; `None` stays `None`.
    match val with
    | .none => .none
    | .str s => .str s
  else if fn = bytesOf "hash_md5()" then
    match val with
    | .none => .none
    | .str s => .str (md5Hex s)
  else if fn = bytesOf "hash_sha256()" then
    match val with
    | .none => .none
    | .str s => .str (sha256Hex s)
  else val

/-! ## Router (`app/services/router.py`)

Configuration values are modelled as typed records with `Option` fields for
keys a YAML dict may omit (`dict.get` with a default becomes `Option.getD`).
`choose_route` only reads `udm.ad.campaign_id` / `udm.ad.ad_id`, both
defaulting to `""`; Python truthiness of those strings is `≠ ""`. -/

/-- The accepted shapes of a rule's `callback_events` whitelist (§4.7). -/
inductive CbEvents where
  | list : List String → CbEvents
  | map : List (String × String) → CbEvents
  | str : String → CbEvents
deriving DecidableEq

/-- One entry of a route's `rules` list. -/
structure Rule where
  equals : Option String := none
  upstream : Option String := none
  downstream : Option String := none
  enabled : Option Bool := none
  throttle : Option ℚ := none
  callback_events : Option CbEvents := none
  custom_params : Option (List (String × String)) := none
  debounce : Option Bool := none
deriving DecidableEq

/-- One entry of the top-level `routes` list. -/
structure RouteCfg where
  match_key : Option String := none
  rules : List Rule := []
  fallback_upstream : Option String := none
  fallback_downstream : Option String := none
  fallback_enabled : Option Bool := none
  fallback_throttle : Option ℚ := none
deriving DecidableEq

/-- The slice of the UDM that `choose_route` reads: `ad.campaign_id` and
`ad.ad_id`, already defaulted to `""` when absent (as `udm.get("ad", {})
.get(..., "")` does). -/
structure RoutingUdm where
  campaign_id : String := ""
  ad_id : String := ""
deriving DecidableEq

/-- The inner rule scan: first rule whose `equals` equals the target. -/
def findRuleByEquals (target : String) : List Rule → Option Rule
  | [] => none
  | r :: rest => if r.equals = some target then some r else findRuleByEquals target rest

/-- The route-table scan shared by `choose_route`: for each route, match by
`campaign_id` or `ad_id` when the corresponding UDM value is truthy, and
return the first rule hit. -/
def scanRoutes (udm : RoutingUdm) : List RouteCfg → Option Rule
  | [] => none
  | rc :: rest =>
      if rc.match_key = some "campaign_id" ∧ udm.campaign_id ≠ "" then
        match findRuleByEquals udm.campaign_id rc.rules with
        | some r => some r
        | none => scanRoutes udm rest
      else if rc.match_key = some "ad_id" ∧ udm.ad_id ≠ "" then
        match findRuleByEquals udm.ad_id rc.rules with
        | some r => some r
        | none => scanRoutes udm rest
      else scanRoutes udm rest

/-- `choose_route(udm, config)` from `app/services/router.py`: the scan
above, else the first route's fallback fields, else `(None, None, False, 0.0)`
when there are no routes at all. -/
def choose_route (udm : RoutingUdm) (routes : List RouteCfg) :
    Option String × Option String × Bool × ℚ :=
  match routes with
  | [] => (none, none, false, 0)
  | first :: _ =>
      match scanRoutes udm routes with
      | some r => (r.upstream, r.downstream, r.enabled.getD true, r.throttle.getD 0)
      | none => (first.fallback_upstream, first.fallback_downstream,
          first.fallback_enabled.getD true, first.fallback_throttle.getD 0)

/-- Modelled from the spec: `find_matching_rule` is imported by
`app/routers/track.py` and `app/routers/callback.py` from
`app/services/router.py` but no definition appears anywhere under `src/`.
Spec §4.4 says it "returns the same rule object (for reading
`callback_events`, `custom_params`, `debounce`)" as `choose_route`'s rule
scan selects, so it is modelled as exactly that scan, returning the matched
rule (and `none` when only the fallback applies). -/
def find_matching_rule (udm : RoutingUdm) (routes : List RouteCfg) : Option Rule :=
  scanRoutes udm routes

/-- Nested `retry` dict of an outbound adapter. -/
structure RetryCfg where
  max : Option ℕ := none
  backoff_ms : Option ℤ := none
deriving DecidableEq

/-- An outbound adapter entry (`upstream.adapters.outbound[event_type]`).
Only the fields `dispatch_click_job` consults are modelled; the `url`,
`macros`, `headers` and `body` templates influence nothing but the rendered
URL/body and are absorbed by the `render` parameter of the dispatch model. -/
structure AdapterCfg where
  url : String := ""
  method : Option String := none
  timeout_ms : Option ℤ := none
  retry : Option RetryCfg := none
deriving DecidableEq

/-- One entry of the top-level `upstreams` list; `adapters` is the nested
dict `adapter_type → event_type → adapter` as an association list. -/
structure UpstreamCfg where
  id : Option String := none
  adapters : List (String × List (String × AdapterCfg)) := []
deriving DecidableEq

/-- `find_upstream_config(upstream_id, config)`: `None` for a falsy id,
else the first upstream whose `id` matches. -/
def find_upstream_config (upstream_id : String) (upstreams : List UpstreamCfg) :
    Option UpstreamCfg :=
  if upstream_id = "" then none
  else upstreams.find? (fun u => u.id = some upstream_id)

/-- `get_adapter_config(partner_config, adapter_type, event_type)`:
`adapters.get(adapter_type, {}).get(event_type)`. -/
def get_adapter_config (u : UpstreamCfg) (adapter_type event_type : String) :
    Option AdapterCfg :=
  ((u.adapters.lookup adapter_type).getD []).lookup event_type

/-- `calculate_throttle_score(rid)`: first 8 bytes of `MD5(rid)` as a
big-endian unsigned integer. -/
def beBytesToNat (l : List ℕ) : ℕ := l.foldl (fun acc b => acc * 256 + b) 0

/-- `calculate_throttle_score(rid)` from `app/services/router.py`, with the
Python float division `hash_int / 2**64` taken as exact division in `ℚ`. -/
def calculate_throttle_score (rid : List ℕ) : ℚ :=
  (beBytesToNat ((md5 rid).take 8) : ℚ) / 2 ^ 64

/-- `should_throttle_callback(rid, throttle_rate)` from
`app/services/router.py`. -/
def should_throttle_callback (rid : List ℕ) (throttle_rate : ℚ) : Bool :=
  if throttle_rate ≤ 0 then false
  else if 1 ≤ throttle_rate then true
  else decide (calculate_throttle_score rid < throttle_rate)

/-! ## HTTP forwarder (`http_send_with_retry` in `app/services/connector.py`)

The loop is deterministic given an oracle `env k` for the result of the
`k`-th underlying `http_send` call and `dur k` for the wall-clock
milliseconds it consumed.  Time is the code's own `time.monotonic()` clock in
milliseconds, starting at 0 when the function is entered, so
`deadline = timeout_ms`.  The Python initial value
`(500, {"error": "no_attempt"})` is the `none` case of `last` (the code
detects it by that exact sentinel payload).  The run also records, for each
attempt, the remaining budget when it was issued and the per-attempt timeout
handed to `http_send`, and likewise each back-off sleep actually performed. -/

/-- A response body: the `{"error": "timeout"}` object (produced both by
`http_send` on timeout and by the budget-exhausted return) or any other
payload. -/
inductive Resp where
  | timeout : Resp
  | payload : ℕ → Resp
deriving DecidableEq

/-- Log entry for one issued attempt. -/
structure AttemptRec where
  remaining : ℤ
  timeoutGiven : ℤ
  status : ℤ
  resp : Resp
deriving DecidableEq

/-- Log entry for one back-off sleep actually performed. -/
structure SleepRec where
  remaining : ℤ
  dur : ℤ
deriving DecidableEq

/-- The observable outcome of `http_send_with_retry`. -/
structure RetryRun where
  status : ℤ
  resp : Resp
  attempts : List AttemptRec
  sleeps : List SleepRec
deriving DecidableEq

/-- The value returned when the loop ends: the last attempt's result, or
`(408, timeout)` when no attempt was ever issued. -/
def finishLast : Option (ℤ × Resp) → ℤ × Resp
  | Option.none => (408, Resp.timeout)
  | some r => r

/-- The `while attempt <= max_retries` loop; `fuel` counts the loop
entries still permitted (`max_retries + 1 - attempt`). -/
def retryGo (env : ℕ → ℤ × Resp) (dur : ℕ → ℤ) (deadline backoff : ℤ) :
    ℕ → ℤ → ℕ → Option (ℤ × Resp) → List AttemptRec → List SleepRec → RetryRun
  | 0, _, _, last, atts, slps =>
      let r := finishLast last
      ⟨r.1, r.2, atts, slps⟩
  | fuel + 1, now, k, last, atts, slps =>
      let remaining := deadline - now
      if remaining ≤ 0 then
        -- budget exhausted: timeout if no attempt was ever made, else last result
        let r := finishLast last
        ⟨r.1, r.2, atts, slps⟩
      else
        let t := max 100 remaining
        let r := env k
        let now2 := now + dur k
        let atts2 := atts ++ [⟨remaining, t, r.1, r.2⟩]
        if 200 ≤ r.1 ∧ r.1 < 400 then ⟨r.1, r.2, atts2, slps⟩
        else if r.1 ≠ 408 then ⟨r.1, r.2, atts2, slps⟩
        else if fuel = 0 then ⟨r.1, r.2, atts2, slps⟩
        else
          let rem2 := deadline - now2
          if rem2 ≤ 0 then ⟨r.1, r.2, atts2, slps⟩
          else
            let s := min backoff rem2
            if 0 < s then
              retryGo env dur deadline backoff fuel (now2 + s) (k + 1) (some r)
                atts2 (slps ++ [⟨rem2, s⟩])
            else
              retryGo env dur deadline backoff fuel now2 (k + 1) (some r) atts2 slps

/-- `http_send_with_retry(..., timeout_ms, max_retries, backoff_ms)`:
`timeout_ms` is the total budget, the loop runs at most `max_retries + 1`
times. -/
def http_send_with_retry (env : ℕ → ℤ × Resp) (dur : ℕ → ℤ)
    (timeout_ms : ℤ) (max_retries : ℕ) (backoff_ms : ℤ) : RetryRun :=
  retryGo env dur timeout_ms backoff_ms (max_retries + 1) 0 0 Option.none [] []

/-! ## Forwarder (`dispatch_click_job` in `app/services/forwarder.py`) -/

/-- The UDM slice `dispatch_click_job` reads for its route re-check:
`udm.ad` (scanned by `choose_route`) and `udm.meta.downstream_id`. -/
structure JobUdm where
  ad : RoutingUdm := {}
  downstream_id : String := ""
deriving DecidableEq

/-- A debounce/dispatch job as built by the track entrypoint
(`callback_template` and `route_params` only influence the rendered URL and
the stored row payload, absorbed by the `render` parameter below). -/
structure Job where
  trace_id : String := ""
  udm : JobUdm := {}
  upstream_id : String := ""
  event_type : String := ""
deriving DecidableEq

/-- The distinguishable response messages of `dispatch_click_job`. -/
inductive DispatchMsg where
  | route_disabled_drop : DispatchMsg
  | upstream_not_found : DispatchMsg
  | no_adapter : DispatchMsg
  | upstream : Resp → DispatchMsg
deriving DecidableEq

/-- The `RequestLog` row inserted after the upstream attempt. -/
structure InsertedRow where
  rid : String
  upstream_url : String
  track_status : ℕ
  is_callback_sent : ℕ
deriving DecidableEq

/-- The observable outcome of `dispatch_click_job`: the returned
`(status, response)` plus whether an upstream HTTP call was issued
(`http`) and whether a `RequestLog` row was inserted (`row`). -/
structure DispatchOutcome where
  status : ℤ
  msg : DispatchMsg
  http : Option RetryRun := none
  row : Option InsertedRow := none
deriving DecidableEq

/-- `dispatch_click_job(job)` from `app/services/forwarder.py`.  `render`
stands for `render_template` over the adapter's URL/macros (it influences
only the URL string); `env`/`dur` are the HTTP oracle of
`http_send_with_retry`. -/
def dispatch_click_job (render : AdapterCfg → Job → String)
    (env : ℕ → ℤ × Resp) (dur : ℕ → ℤ)
    (routes : List RouteCfg) (upstreams : List UpstreamCfg) (job : Job) :
    DispatchOutcome :=
  -- 二次路由校验: re-run choose_route on the job's ad fields
  let rr := choose_route job.udm.ad routes
  let currentUp := rr.1
  let currentEnabled := rr.2.2.1
  -- `(not current_enabled) or (current_up_id and current_up_id != upstream_id)`
  -- with Python truthiness of `current_up_id` (non-None, non-empty string)
  let dropIt := !currentEnabled ||
    (match currentUp with
     | some s => decide (s ≠ "") && decide (s ≠ job.upstream_id)
     | Option.none => false)
  if dropIt then ⟨200, .route_disabled_drop, none, none⟩
  else
    match find_upstream_config job.upstream_id upstreams with
    | Option.none => ⟨500, .upstream_not_found, none, none⟩
    | some ucfg =>
        match get_adapter_config ucfg "outbound" job.event_type with
        | Option.none => ⟨200, .no_adapter, none, none⟩
        | some adapter =>
            let url := render adapter job
            let run := http_send_with_retry env dur (adapter.timeout_ms.getD 5000)
              ((adapter.retry.getD {}).max.getD 1) ((adapter.retry.getD {}).backoff_ms.getD 200)
            let ts : ℕ := if run.status = 200 then 1 else 2
            ⟨run.status, .upstream run.resp, some run,
              some ⟨job.trace_id, url, ts, 0⟩⟩

/-! ## Debounce submit (`RedisDebounceManager.submit_job`,
`app/services/debounce_redis.py`)

The Lua script executed by `EVAL` is atomic per key, so a sequence of
submits for one task key is a fold of the script's state transformation over
the `latest` hash.  Hash fields that the script may leave unset
(`order_ts_ms`/`job_json`, never written when the very first submit carries
`order_ts_ms < -1`) are `Option`s; `HGET ... or '-1'` is `Option.getD (-1)`. -/

/-- Arguments of one `submit_job` call relevant to the script:
`now_ms` (server time at submit), `order_ts_ms` and the serialised job. -/
structure SubmitArg where
  now : ℤ
  order : ℤ
  job : String
deriving DecidableEq

/-- The `debounce:latest:<h>:<key>` hash. -/
structure LatestEntry where
  first_submit_ms : ℤ
  order_ts_ms : Option ℤ
  job_json : Option String
  due_at_ms : ℤ
  updated_ms : ℤ
deriving DecidableEq

/-- One execution of the submit Lua script on the hash for a fixed task
key. -/
def submit_job_script (max_wait_ms : ℤ) (st : Option LatestEntry) (s : SubmitArg) :
    LatestEntry :=
  let first := match st with
    | Option.none => s.now
    | some e => e.first_submit_ms
  let prevOrder : Option ℤ := match st with
    | Option.none => Option.none
    | some e => e.order_ts_ms
  let prevJob : Option String := match st with
    | Option.none => Option.none
    | some e => e.job_json
  let store := decide (prevOrder.getD (-1) ≤ s.order)
  { first_submit_ms := first
    order_ts_ms := if store then some s.order else prevOrder
    job_json := if store then some s.job else prevJob
    due_at_ms := first + max_wait_ms
    updated_ms := s.now }

/-- A sequence of submits for one task key, starting from an absent hash. -/
def run_submits (max_wait_ms : ℤ) (st : Option LatestEntry) (l : List SubmitArg) :
    Option LatestEntry :=
  l.foldl (fun st s => some (submit_job_script max_wait_ms st s)) st

/-! ## Callback handler (`handle_upstream_callback`,
`app/routers/callback.py`)

The handler's control flow over one request is modelled branch-by-branch.
`routing_udm` is a Python local assigned only inside `if row:`
(callback.py:265); reading an unassigned local raises `NameError`, modelled
as the `Except.error` case.  The writes the handler commits to the row's
`is_callback_sent` column are returned in order. -/

/-- The branch outcomes of one callback request: whitelist hit
(`_should_callback_and_remap_event`), throttle decision
(`should_throttle_callback`), existence of a downstream template, and the
downstream dispatch result. -/
structure CallbackCase where
  hit : Bool
  throttled : Bool
  template : Bool
  dispatchOk : Bool
deriving DecidableEq

/-- The `{success, code}` response envelope. -/
structure Envelope where
  success : Bool
  code : ℕ
deriving DecidableEq

/-- A Python runtime error escaping the handler. -/
inductive PyError where
  | nameError_routing_udm : PyError
deriving DecidableEq

/-- `handle_upstream_callback` for a request whose `rid` is present:
either a response envelope together with the ordered list of values written
to the row's `is_callback_sent` column, or an uncaught Python error. -/
def handle_upstream_callback (globalEnabled rowExists : Bool) (c : CallbackCase) :
    Except PyError (Envelope × List ℕ) :=
  if globalEnabled = false then
    -- kill switch: 200 without any action
    .ok (⟨true, 200⟩, [])
  else
    -- callback.py:265 assigns routing_udm only under `if row:`;
    -- callback.py:295 then reads it unconditionally.
    let routing_udm : Option Unit := if rowExists then some () else Option.none
    match routing_udm with
    | Option.none => .error .nameError_routing_udm
    | some _ =>
        if c.hit = false then
          -- whitelist miss: record and set 4
          .ok (⟨true, 200⟩, [4])
        else
          -- callback.py:363 records callback params and sets the column to 0
          let pre : List ℕ := [0]
          if c.throttled then .ok (⟨true, 200⟩, pre ++ [2])
          else if c.template = false then .ok (⟨true, 200⟩, pre)
          else if c.dispatchOk then .ok (⟨true, 200⟩, pre ++ [1])
          else .ok (⟨false, 500⟩, pre ++ [3])

/-- The `is_callback_sent` writes of one completed callback request against
an existing row (routing enabled). -/
def callbackWrites (c : CallbackCase) : List ℕ :=
  match handle_upstream_callback true true c with
  | .ok r => r.2
  | .error _ => []

/-- The full history of `is_callback_sent` values of one `RequestLog` row:
0 at insert (track/forwarder), then every write of each subsequent callback
request. -/
def requestLogTrace (runs : List CallbackCase) : List ℕ :=
  0 :: runs.flatMap callbackWrites

/-- The claimed invariant: once the column is non-zero it never returns
to 0 at any later point of the history. -/
def NoRegression (t : List ℕ) : Prop :=
  ∀ i, i < t.length → ∀ j, j < t.length → i ≤ j → t.getD i 0 ≠ 0 → t.getD j 0 ≠ 0

instance (t : List ℕ) : Decidable (NoRegression t) := by
  unfold NoRegression
  infer_instance

/-! ## Track query cleaning (`_is_placeholder` / `_clean_query_placeholders`,
`app/routers/track.py`) -/

/-- `_is_placeholder(value)`: falsy strings are not placeholders; otherwise
strip whitespace and test `startswith("__") and endswith("__")`. -/
def is_placeholder (value : List ℕ) : Bool :=
  if value = [] then false
  else
    let s := pyStrip value
    List.isPrefixOf (bytesOf "__") s && List.isSuffixOf (bytesOf "__") s

/-- The per-value transformation of `_clean_query_placeholders`. -/
def clean_query_value (v : List ℕ) : List ℕ :=
  if is_placeholder v then [] else v

/-- `_clean_query_placeholders` over the whole query dict (every value is a
string, so the `isinstance(val, str)` guard always holds). -/
def clean_query_placeholders (q : List (List ℕ × List ℕ)) : List (List ℕ × List ℕ) :=
  q.map (fun kv => (kv.1, clean_query_value kv.2))

/-- The spec's pattern `^__.+__$`: at least one character strictly between a
leading and a trailing `__`. -/
def MatchesPlaceholderPattern (v : List ℕ) : Prop :=
  ∃ mid, mid ≠ [] ∧ v = bytesOf "__" ++ mid ++ bytesOf "__"

/-! ## Supporting lemmas -/

theorem le4Bytes_lt (n : ℕ) : ∀ b ∈ le4Bytes n, b < 256 := by
  intro b hb
  simp [le4Bytes] at hb
  rcases hb with rfl | rfl | rfl | rfl <;> exact Nat.mod_lt _ (by norm_num)

theorem md5_bytes_lt (m : List ℕ) : ∀ b ∈ md5 m, b < 256 := by
  intro b hb
  simp only [md5, List.mem_append] at hb
  rcases hb with ((hb | hb) | hb) | hb <;> exact le4Bytes_lt _ b hb

theorem foldl_base256_lt (l : List ℕ) (acc : ℕ) (h : ∀ b ∈ l, b < 256) :
    l.foldl (fun acc b => acc * 256 + b) acc < (acc + 1) * 256 ^ l.length := by
  induction l generalizing acc with
  | nil => simp
  | cons b t ih =>
      have hb : b < 256 := h b (by simp)
      have ht : ∀ x ∈ t, x < 256 := fun x hx => h x (by simp [hx])
      have h1 := ih (acc * 256 + b) ht
      have h2 : (acc * 256 + b + 1) * 256 ^ t.length ≤ (acc + 1) * 256 ^ (t.length + 1) := by
        have : acc * 256 + b + 1 ≤ (acc + 1) * 256 := by omega
        calc (acc * 256 + b + 1) * 256 ^ t.length
            ≤ ((acc + 1) * 256) * 256 ^ t.length := Nat.mul_le_mul_right _ this
          _ = (acc + 1) * 256 ^ (t.length + 1) := by ring
      simp only [List.foldl_cons, List.length_cons]
      exact lt_of_lt_of_le h1 h2

theorem beBytesToNat_lt (l : List ℕ) (h : ∀ b ∈ l, b < 256) :
    beBytesToNat l < 256 ^ l.length := by
  have := foldl_base256_lt l 0 h
  simpa [beBytesToNat] using this

/-- The integer fed into the throttle score is a genuine unsigned 64-bit
value. -/
theorem throttle_hash_lt (rid : List ℕ) :
    beBytesToNat ((md5 rid).take 8) < 2 ^ 64 := by
  have hmem : ∀ b ∈ (md5 rid).take 8, b < 256 :=
    fun b hb => md5_bytes_lt rid b (List.mem_of_mem_take hb)
  have hlen : ((md5 rid).take 8).length ≤ 8 := by
    simp
  calc beBytesToNat ((md5 rid).take 8) < 256 ^ ((md5 rid).take 8).length :=
        beBytesToNat_lt _ hmem
    _ ≤ 256 ^ 8 := Nat.pow_le_pow_right (by norm_num) hlen
    _ = 2 ^ 64 := by norm_num

theorem pyStrip_of_ends_notspace (a b : ℕ) (mid : List ℕ)
    (ha : isPySpace a = false) (hb : isPySpace b = false) :
    pyStrip (a :: (mid ++ [b])) = a :: (mid ++ [b]) := by
  unfold pyStrip
  rw [List.dropWhile_cons_of_neg (by simp [ha])]
  have hrev : (a :: (mid ++ [b])).reverse = b :: (mid.reverse ++ [a]) := by
    simp
  rw [hrev, List.dropWhile_cons_of_neg (by simp [hb]), ← hrev, List.reverse_reverse]

/-! ## Claim theorems -/

/-- Claim C4: `calculate_throttle_score(rid)` is the first 8 bytes of
`MD5(rid)` read big-endian divided by `2^64`, hence deterministic and in
`[0, 1)`; `should_throttle_callback` passes every rate ≤ 0, throttles every
rate ≥ 1, and otherwise throttles exactly when the score is below the
rate. -/
theorem throttle_score_and_decision (rid : List ℕ) (rate : ℚ) :
    calculate_throttle_score rid = (beBytesToNat ((md5 rid).take 8) : ℚ) / 2 ^ 64 ∧
    0 ≤ calculate_throttle_score rid ∧ calculate_throttle_score rid < 1 ∧
    (rate ≤ 0 → should_throttle_callback rid rate = false) ∧
    (1 ≤ rate → should_throttle_callback rid rate = true) ∧
    (0 < rate → rate < 1 →
      (should_throttle_callback rid rate = true ↔ calculate_throttle_score rid < rate)) := by
  refine ⟨rfl, ?_, ?_, ?_, ?_, ?_⟩
  · unfold calculate_throttle_score
    positivity
  · unfold calculate_throttle_score
    rw [div_lt_one (by positivity)]
    have h := throttle_hash_lt rid
    calc (beBytesToNat ((md5 rid).take 8) : ℚ) < ((2 ^ 64 : ℕ) : ℚ) := by
          exact_mod_cast h
      _ = 2 ^ 64 := by norm_num
  · intro h
    simp [should_throttle_callback, h]
  · intro h
    have : ¬ rate ≤ 0 := by linarith
    simp [should_throttle_callback, this, h]
  · intro h0 h1
    have hn0 : ¬ rate ≤ 0 := by linarith
    have hn1 : ¬ 1 ≤ rate := by linarith
    simp [should_throttle_callback, hn0, hn1]

/-- Witness for C4 at a concrete rid and rates on both short-circuit
branches. -/
theorem throttle_score_and_decision_witness :
    should_throttle_callback (bytesOf "a") 2 = true ∧
    should_throttle_callback (bytesOf "a") (-1) = false :=
  ⟨(throttle_score_and_decision (bytesOf "a") 2).2.2.2.2.1 (by norm_num),
   (throttle_score_and_decision (bytesOf "a") (-1)).2.2.2.1 (by norm_num)⟩

/-- Claim C9: every pipeline stage of `_apply_function` passes `None`
through unchanged. -/
theorem stages_null_passthrough :
    ∀ fn ∈ [bytesOf "to_upper()", bytesOf "to_lower()", bytesOf "trim()",
      bytesOf "url_encode()", bytesOf "normalize_encode()",
      bytesOf "date_format('%s')", bytesOf "hash_md5()", bytesOf "hash_sha256()"],
      applyFunction PyVal.none fn = PyVal.none := by
  decide

/-- Witness for C9 at the `to_upper()` stage. -/
theorem stages_null_passthrough_witness :
    applyFunction PyVal.none (bytesOf "to_upper()") = PyVal.none :=
  stages_null_passthrough (bytesOf "to_upper()") (by decide)

/-- Counterexample to claim C8 as stated: for the one-byte string `" "`,
`normalize_encode` yields `"%20"` and `url_encode` re-escapes the `%`,
giving `"%2520" ≠ "%20"`. -/
theorem url_encode_not_fix_of_normalize :
    applyFunction (applyFunction (PyVal.str [32]) (bytesOf "normalize_encode()"))
        (bytesOf "url_encode()") ≠
      applyFunction (PyVal.str [32]) (bytesOf "normalize_encode()") := by
  decide

/-- Claim C8 as amended: `normalize_encode` itself is idempotent — applying
the stage twice equals applying it once (for byte strings). -/
theorem normalize_encode_idempotent (s : List ℕ) (h : ∀ b ∈ s, b < 256) :
    applyFunction (applyFunction (PyVal.str s) (bytesOf "normalize_encode()"))
        (bytesOf "normalize_encode()") =
      applyFunction (PyVal.str s) (bytesOf "normalize_encode()") := by
  have h1 : applyFunction (PyVal.str s) (bytesOf "normalize_encode()") =
      PyVal.str (normalizeEncodeBytes s) := rfl
  rw [h1]
  have h2 : applyFunction (PyVal.str (normalizeEncodeBytes s)) (bytesOf "normalize_encode()") =
      PyVal.str (normalizeEncodeBytes (normalizeEncodeBytes s)) := rfl
  rw [h2, normalizeEncodeBytes_idem s h]

/-- Witness for C8 (amended) on the string `" "`. -/
theorem normalize_encode_idempotent_witness :
    applyFunction (applyFunction (PyVal.str [32]) (bytesOf "normalize_encode()"))
        (bytesOf "normalize_encode()") =
      applyFunction (PyVal.str [32]) (bytesOf "normalize_encode()") :=
  normalize_encode_idempotent [32] (by decide)

/-- Counterexample to claim C7 as stated: `"____"` is blanked by the
cleaning step although it does not match `^__.+__$` (nothing strictly
between the two `__`). -/
theorem clean_query_not_regex :
    clean_query_value (bytesOf "____") = [] ∧
    ¬ MatchesPlaceholderPattern (bytesOf "____") := by
  constructor
  · decide
  · rintro ⟨mid, hne, heq⟩
    have e1 : bytesOf "____" = [95, 95, 95, 95] := by decide
    have e2 : bytesOf "__" = [95, 95] := by decide
    rw [e1, e2] at heq
    have h4 := congrArg List.length heq
    simp only [List.length_append, List.length_cons, List.length_nil] at h4
    exact hne (List.eq_nil_of_length_eq_zero (by omega))

/-- Claim C7 as amended: a value is blanked iff it is non-empty and its
whitespace-stripped form both starts and ends with `__`; in particular every
`^__.+__$` match is blanked, and every non-blanked value passes through
unchanged. -/
theorem clean_query_characterisation (v : List ℕ) :
    (MatchesPlaceholderPattern v → clean_query_value v = []) ∧
    (clean_query_value v = [] ↔
      v = [] ∨ (List.isPrefixOf (bytesOf "__") (pyStrip v) ∧
        List.isSuffixOf (bytesOf "__") (pyStrip v))) ∧
    (clean_query_value v = [] ∨ clean_query_value v = v) := by
  refine ⟨?_, ?_, ?_⟩
  · rintro ⟨mid, hne, heq⟩
    have hform : v = 95 :: ((95 :: mid ++ [95]) ++ [95]) := by
      rw [heq]
      simp [bytesOf]
    have hstrip : pyStrip v = v := by
      rw [hform]
      exact pyStrip_of_ends_notspace 95 95 _ (by decide) (by decide)
    have hne2 : v ≠ [] := by rw [hform]; simp
    unfold clean_query_value is_placeholder
    rw [if_neg hne2, hstrip, hform]
    simp [bytesOf, List.isPrefixOf, List.isSuffixOf]
  · unfold clean_query_value is_placeholder
    by_cases hv : v = []
    · subst hv
      simp
    · rw [if_neg hv]
      by_cases hp : (List.isPrefixOf (bytesOf "__") (pyStrip v) &&
          List.isSuffixOf (bytesOf "__") (pyStrip v)) = true
      · rw [if_pos hp]
        rw [Bool.and_eq_true] at hp
        exact ⟨fun _ => Or.inr hp, fun _ => rfl⟩
      · rw [if_neg hp]
        rw [Bool.and_eq_true] at hp
        constructor
        · intro h
          exact absurd h hv
        · rintro (h | h)
          · exact absurd h hv
          · exact absurd h hp
  · unfold clean_query_value
    by_cases hp : is_placeholder v = true
    · simp [hp]
    · simp [hp]

/-- Witness for C7 (amended) on `"__x__"` and a plain value. -/
theorem clean_query_characterisation_witness :
    clean_query_value (bytesOf "__x__") = [] :=
  (clean_query_characterisation (bytesOf "__x__")).1 ⟨[120], by decide, by decide⟩

/-- Helper for C1: the state of the `latest` hash after a non-empty
sequence of submits with non-negative `order_ts_ms`. -/
theorem run_submits_spec (mw : ℤ) (s0 : SubmitArg) (rest : List SubmitArg)
    (hpos : ∀ s ∈ s0 :: rest, 0 ≤ s.order) :
    ∃ e, run_submits mw Option.none (s0 :: rest) = some e ∧
      e.first_submit_ms = s0.now ∧
      e.due_at_ms = s0.now + mw ∧
      ∃ l₁ chosen l₂, s0 :: rest = l₁ ++ chosen :: l₂ ∧
        e.order_ts_ms = some chosen.order ∧ e.job_json = some chosen.job ∧
        (∀ s ∈ s0 :: rest, s.order ≤ chosen.order) ∧
        (∀ s ∈ l₂, s.order < chosen.order) := by
  induction rest using List.reverseRecOn with
  | nil =>
      have h0 : (0 : ℤ) ≤ s0.order := hpos s0 (by simp)
      refine ⟨submit_job_script mw Option.none s0, rfl, rfl, rfl, [], s0, [], by simp, ?_, ?_, ?_, ?_⟩
      · simp [submit_job_script, show ((-1 : ℤ) ≤ s0.order) from by omega]
      · simp [submit_job_script, show ((-1 : ℤ) ≤ s0.order) from by omega]
      · intro s hs
        simp at hs
        simp [hs]
      · simp
  | append_singleton l s ih =>
      have hpos' : ∀ x ∈ s0 :: l, 0 ≤ x.order := by
        intro x hx
        apply hpos
        simp at hx ⊢
        tauto
      obtain ⟨e, hrun, hfirst, hdue, l₁, chosen, l₂, hdec, horder, hjob, hmax, hafter⟩ := ih hpos'
      have hstep : run_submits mw Option.none (s0 :: (l ++ [s])) =
          some (submit_job_script mw (some e) s) := by
        have : s0 :: (l ++ [s]) = (s0 :: l) ++ [s] := by simp
        rw [this]
        unfold run_submits
        rw [List.foldl_append]
        unfold run_submits at hrun
        rw [hrun]
        rfl
      by_cases hcmp : chosen.order ≤ s.order
      · -- the new submit has the (weakly) largest order: it wins
        refine ⟨submit_job_script mw (some e) s, hstep, ?_, ?_, s0 :: l, s, [], by simp, ?_, ?_, ?_, ?_⟩
        · simp [submit_job_script, hfirst]
        · simp [submit_job_script, hfirst, hdue]
        · simp [submit_job_script, horder, hcmp]
        · simp [submit_job_script, horder, hcmp]
        · intro x hx
          rcases List.mem_cons.mp hx with rfl | hx
          · exact le_trans (hmax x (by simp)) hcmp
          · rcases List.mem_append.mp hx with hx | hx
            · exact le_trans (hmax x (by simp [hx])) hcmp
            · simp at hx
              simp [hx]
        · simp
      · -- the stored order is strictly newer: payload survives
        push_neg at hcmp
        have hkeep : ¬ chosen.order ≤ s.order := not_le.mpr hcmp
        refine ⟨submit_job_script mw (some e) s, hstep, ?_, ?_,
          l₁, chosen, l₂ ++ [s], ?_, ?_, ?_, ?_, ?_⟩
        · simp [submit_job_script, hfirst]
        · simp [submit_job_script, hfirst, hdue]
        · rw [show s0 :: (l ++ [s]) = (s0 :: l) ++ [s] from by simp, hdec]
          simp
        · simp [submit_job_script, horder, hkeep]
        · simp [submit_job_script, horder, hkeep, hjob]
        · intro x hx
          rcases List.mem_cons.mp hx with rfl | hx
          · exact hmax x (by simp)
          · rcases List.mem_append.mp hx with hx | hx
            · exact hmax x (by simp [hx])
            · simp at hx
              subst hx
              exact le_of_lt hcmp
        · intro x hx
          rcases List.mem_append.mp hx with hx | hx
          · exact hafter x hx
          · simp at hx
            subst hx
            exact hcmp

/-- Claim C1: for a sequence of `submit_job` calls on one task key with a
fixed `max_wait_ms` (and real, non-negative `order_ts_ms` timestamps), the
stored `job_json` is the payload of a submit of maximal `order_ts_ms` — the
latest such submit, since later submits of equal order overwrite —
`due_at_ms` is always `first_submit_ms + max_wait_ms` with
`first_submit_ms` fixed by the first submit (a fixed, not sliding, window),
and a submit with an older `order_ts_ms` than the stored one never
overwrites the stored payload. -/
theorem submit_job_invariants (mw : ℤ) (s0 : SubmitArg) (rest : List SubmitArg)
    (hpos : ∀ s ∈ s0 :: rest, 0 ≤ s.order) :
    (∃ e, run_submits mw Option.none (s0 :: rest) = some e ∧
      e.first_submit_ms = s0.now ∧
      e.due_at_ms = s0.now + mw ∧
      ∃ l₁ chosen l₂, s0 :: rest = l₁ ++ chosen :: l₂ ∧
        e.order_ts_ms = some chosen.order ∧ e.job_json = some chosen.job ∧
        (∀ s ∈ s0 :: rest, s.order ≤ chosen.order) ∧
        (∀ s ∈ l₂, s.order < chosen.order)) ∧
    (∀ (e : LatestEntry) (s : SubmitArg), s.order < e.order_ts_ms.getD (-1) →
      (submit_job_script mw (some e) s).order_ts_ms = e.order_ts_ms ∧
      (submit_job_script mw (some e) s).job_json = e.job_json ∧
      (submit_job_script mw (some e) s).first_submit_ms = e.first_submit_ms) := by
  refine ⟨run_submits_spec mw s0 rest hpos, ?_⟩
  intro e s hlt
  have : ¬ e.order_ts_ms.getD (-1) ≤ s.order := by omega
  refine ⟨?_, ?_, rfl⟩ <;> simp [submit_job_script, this]

/-- Witness for C1: two submits where the second carries an older
`order_ts_ms`; the stored payload is the first one's. -/
theorem submit_job_invariants_witness :
    ∃ e, run_submits 20000 Option.none
        [⟨1000, 50, "a"⟩, ⟨1500, 40, "b"⟩] = some e ∧
      e.first_submit_ms = 1000 ∧ e.due_at_ms = 21000 ∧
      e.order_ts_ms = some 50 ∧ e.job_json = some "a" := by
  obtain ⟨e, hrun, hfirst, hdue, l₁, chosen, l₂, hdec, horder, hjob, hmax, hafter⟩ :=
    (submit_job_invariants 20000 ⟨1000, 50, "a"⟩ [⟨1500, 40, "b"⟩]
      (by intro s hs; simp at hs; rcases hs with rfl | rfl <;> norm_num)).1
  have h2 : (50 : ℤ) ≤ chosen.order := hmax ⟨1000, 50, "a"⟩ (by simp)
  have hmem : chosen ∈ [(⟨1000, 50, "a"⟩ : SubmitArg), ⟨1500, 40, "b"⟩] := by
    have hin : chosen ∈ l₁ ++ chosen :: l₂ := by simp
    rw [← hdec] at hin
    exact hin
  have hch : chosen = ⟨1000, 50, "a"⟩ := by
    simp at hmem
    rcases hmem with h | h
    · exact h
    · rw [h] at h2
      simp at h2
  subst hch
  exact ⟨e, hrun, hfirst, by rw [hdue]; norm_num, by rw [horder], by rw [hjob]⟩

/-- Helper for C2: full characterisation of the retry loop from any loop
state.  The run extends the accumulated logs by `newAtts`/`newSlps`
satisfying the claimed bounds, and the returned result is the last new
attempt's result (or `finishLast last` if no new attempt was issued). -/
theorem retryGo_spec (env : ℕ → ℤ × Resp) (dur : ℕ → ℤ) (deadline backoff : ℤ) :
    ∀ (fuel : ℕ) (now : ℤ) (k : ℕ) (last : Option (ℤ × Resp))
      (atts : List AttemptRec) (slps : List SleepRec),
    ∃ st rsp newAtts newSlps,
      retryGo env dur deadline backoff fuel now k last atts slps =
        ⟨st, rsp, atts ++ newAtts, slps ++ newSlps⟩ ∧
      newAtts.length ≤ fuel ∧
      (∀ a ∈ newAtts, a.timeoutGiven = max 100 a.remaining ∧ 0 < a.remaining) ∧
      (∀ s ∈ newSlps, s.dur = min backoff s.remaining ∧ 0 < s.remaining ∧ 0 < s.dur) ∧
      (∀ a ∈ newAtts.dropLast, a.status = 408) ∧
      ((newAtts = [] ∧ st = (finishLast last).1 ∧ rsp = (finishLast last).2) ∨
        (∃ pre la, newAtts = pre ++ [la] ∧ st = la.status ∧ rsp = la.resp)) ∧
      (0 < fuel → 0 < deadline - now → newAtts ≠ []) := by
  intro fuel
  induction fuel with
  | zero =>
      intro now k last atts slps
      refine ⟨(finishLast last).1, (finishLast last).2, [], [], by simp [retryGo], by simp,
        by simp, by simp, by simp, Or.inl ⟨rfl, rfl, rfl⟩, by omega⟩
  | succ f ih =>
      intro now k last atts slps
      by_cases hrem : deadline - now ≤ 0
      · refine ⟨(finishLast last).1, (finishLast last).2, [], [],
          by simp [retryGo, hrem], by simp, by simp, by simp, by simp,
          Or.inl ⟨rfl, rfl, rfl⟩, by intro _ h; omega⟩
      · push_neg at hrem
        by_cases hsucc : 200 ≤ (env k).1 ∧ (env k).1 < 400
        · refine ⟨(env k).1, (env k).2,
            [⟨deadline - now, max 100 (deadline - now), (env k).1, (env k).2⟩], [],
            by simp [retryGo, not_le.mpr hrem, hsucc], by simp, ?_, by simp, by simp,
            Or.inr ⟨[], ⟨deadline - now, max 100 (deadline - now), (env k).1, (env k).2⟩, by simp, rfl, rfl⟩, by simp⟩
          intro a ha
          simp at ha
          subst ha
          exact ⟨rfl, hrem⟩
        · by_cases h408 : (env k).1 = 408
          · by_cases hfz : f = 0
            · refine ⟨(env k).1, (env k).2,
                [⟨deadline - now, max 100 (deadline - now), (env k).1, (env k).2⟩], [],
                by simp [retryGo, not_le.mpr hrem, hsucc, h408, hfz], by simp, ?_,
                by simp, by simp, Or.inr ⟨[], ⟨deadline - now, max 100 (deadline - now), (env k).1, (env k).2⟩, by simp, rfl, rfl⟩, by simp⟩
              intro a ha
              simp at ha
              subst ha
              exact ⟨rfl, hrem⟩
            · by_cases hrem2 : deadline - (now + dur k) ≤ 0
              · refine ⟨(env k).1, (env k).2,
                  [⟨deadline - now, max 100 (deadline - now), (env k).1, (env k).2⟩], [],
                  by simp [retryGo, not_le.mpr hrem, hsucc, h408, hfz, hrem2], by simp, ?_,
                  by simp, by simp, Or.inr ⟨[], ⟨deadline - now, max 100 (deadline - now), (env k).1, (env k).2⟩, by simp, rfl, rfl⟩, by simp⟩
                intro a ha
                simp at ha
                subst ha
                exact ⟨rfl, hrem⟩
              · push_neg at hrem2
                by_cases hs : 0 < min backoff (deadline - (now + dur k))
                · obtain ⟨st, rsp, nA, nS, heq, hlen, hA, hS, hdl, hres, _⟩ :=
                    ih (now + dur k + min backoff (deadline - (now + dur k))) (k + 1)
                      (some (env k))
                      (atts ++ [⟨deadline - now, max 100 (deadline - now), (env k).1, (env k).2⟩])
                      (slps ++ [⟨deadline - (now + dur k), min backoff (deadline - (now + dur k))⟩])
                  refine ⟨st, rsp,
                    ⟨deadline - now, max 100 (deadline - now), (env k).1, (env k).2⟩ :: nA,
                    ⟨deadline - (now + dur k), min backoff (deadline - (now + dur k))⟩ :: nS,
                    ?_, by simpa using by omega, ?_, ?_, ?_, ?_, by simp⟩
                  · rw [show retryGo env dur deadline backoff (f + 1) now k last atts slps =
                      retryGo env dur deadline backoff f
                        (now + dur k + min backoff (deadline - (now + dur k))) (k + 1)
                        (some (env k))
                        (atts ++ [⟨deadline - now, max 100 (deadline - now), (env k).1, (env k).2⟩])
                        (slps ++ [⟨deadline - (now + dur k),
                          min backoff (deadline - (now + dur k))⟩]) from by
                        simp [retryGo, not_le.mpr hrem, hsucc, h408, hfz, not_le.mpr hrem2, hs]]
                    rw [heq]
                    simp
                  · intro a ha
                    rcases List.mem_cons.mp ha with rfl | ha
                    · exact ⟨rfl, hrem⟩
                    · exact hA a ha
                  · intro x hx
                    rcases List.mem_cons.mp hx with rfl | hx
                    · exact ⟨rfl, hrem2, hs⟩
                    · exact hS x hx
                  · -- all but the last attempt returned 408
                    rcases hres with ⟨hnil, _, _⟩ | ⟨pre, la, hpl, _, _⟩
                    · subst hnil
                      simp
                    · subst hpl
                      rw [show (⟨deadline - now, max 100 (deadline - now), (env k).1, (env k).2⟩ ::
                        (pre ++ [la])).dropLast =
                          ⟨deadline - now, max 100 (deadline - now), (env k).1, (env k).2⟩ ::
                            (pre ++ [la]).dropLast from
                        List.dropLast_cons_of_ne_nil (by simp)]
                      intro a ha
                      rcases List.mem_cons.mp ha with rfl | ha
                      · exact h408
                      · exact hdl a ha
                  · -- the returned result is the last new attempt's result
                    rcases hres with ⟨hnil, hst, hrsp⟩ | ⟨pre, la, hpl, hst, hrsp⟩
                    · subst hnil
                      exact Or.inr ⟨[], ⟨deadline - now, max 100 (deadline - now),
                        (env k).1, (env k).2⟩, by simp,
                        by simpa [finishLast] using hst,
                        by simpa [finishLast] using hrsp⟩
                    · subst hpl
                      exact Or.inr ⟨⟨deadline - now, max 100 (deadline - now),
                        (env k).1, (env k).2⟩ :: pre, la, by simp, hst, hrsp⟩
                · obtain ⟨st, rsp, nA, nS, heq, hlen, hA, hS, hdl, hres, _⟩ :=
                    ih (now + dur k) (k + 1) (some (env k))
                      (atts ++ [⟨deadline - now, max 100 (deadline - now), (env k).1, (env k).2⟩])
                      slps
                  refine ⟨st, rsp,
                    ⟨deadline - now, max 100 (deadline - now), (env k).1, (env k).2⟩ :: nA,
                    nS, ?_, by simpa using by omega, ?_, hS, ?_, ?_, by simp⟩
                  · rw [show retryGo env dur deadline backoff (f + 1) now k last atts slps =
                      retryGo env dur deadline backoff f (now + dur k) (k + 1) (some (env k))
                        (atts ++ [⟨deadline - now, max 100 (deadline - now), (env k).1, (env k).2⟩])
                        slps from by
                        simp [retryGo, not_le.mpr hrem, hsucc, h408, hfz, not_le.mpr hrem2, hs]]
                    rw [heq]
                    simp
                  · intro a ha
                    rcases List.mem_cons.mp ha with rfl | ha
                    · exact ⟨rfl, hrem⟩
                    · exact hA a ha
                  · rcases hres with ⟨hnil, _, _⟩ | ⟨pre, la, hpl, _, _⟩
                    · subst hnil
                      simp
                    · subst hpl
                      rw [show (⟨deadline - now, max 100 (deadline - now), (env k).1, (env k).2⟩ ::
                        (pre ++ [la])).dropLast =
                          ⟨deadline - now, max 100 (deadline - now), (env k).1, (env k).2⟩ ::
                            (pre ++ [la]).dropLast from
                        List.dropLast_cons_of_ne_nil (by simp)]
                      intro a ha
                      rcases List.mem_cons.mp ha with rfl | ha
                      · exact h408
                      · exact hdl a ha
                  · rcases hres with ⟨hnil, hst, hrsp⟩ | ⟨pre, la, hpl, hst, hrsp⟩
                    · subst hnil
                      exact Or.inr ⟨[], ⟨deadline - now, max 100 (deadline - now),
                        (env k).1, (env k).2⟩, by simp,
                        by simpa [finishLast] using hst,
                        by simpa [finishLast] using hrsp⟩
                    · subst hpl
                      exact Or.inr ⟨⟨deadline - now, max 100 (deadline - now),
                        (env k).1, (env k).2⟩ :: pre, la, by simp, hst, hrsp⟩
          · refine ⟨(env k).1, (env k).2,
              [⟨deadline - now, max 100 (deadline - now), (env k).1, (env k).2⟩], [],
              by simp [retryGo, not_le.mpr hrem, hsucc, h408], by simp, ?_,
              by simp, by simp, Or.inr ⟨[], ⟨deadline - now, max 100 (deadline - now), (env k).1, (env k).2⟩, by simp, rfl, rfl⟩, by simp⟩
            intro a ha
            simp at ha
            subst ha
            exact ⟨rfl, hrem⟩

/-- Claim C2: `http_send_with_retry` issues at most `max_retries + 1`
attempts; every attempt except the last returned 408 (any other status ends
the loop with that result); a non-positive budget yields `(408, timeout)`
with no attempt at all, and a positive budget yields the last attempt's
result; every attempt's per-attempt timeout is `max(100, remaining budget)`
and every back-off sleep is `min(backoff_ms, remaining budget)` (both
positive). -/
theorem http_send_with_retry_budget (env : ℕ → ℤ × Resp) (dur : ℕ → ℤ)
    (timeout_ms : ℤ) (max_retries : ℕ) (backoff_ms : ℤ) :
    (http_send_with_retry env dur timeout_ms max_retries backoff_ms).attempts.length ≤
      max_retries + 1 ∧
    (∀ a ∈ (http_send_with_retry env dur timeout_ms max_retries backoff_ms).attempts.dropLast,
      a.status = 408) ∧
    (timeout_ms ≤ 0 →
      (http_send_with_retry env dur timeout_ms max_retries backoff_ms).attempts = [] ∧
      (http_send_with_retry env dur timeout_ms max_retries backoff_ms).status = 408 ∧
      (http_send_with_retry env dur timeout_ms max_retries backoff_ms).resp = Resp.timeout) ∧
    (0 < timeout_ms →
      (http_send_with_retry env dur timeout_ms max_retries backoff_ms).attempts ≠ [] ∧
      ∃ la, (http_send_with_retry env dur timeout_ms max_retries backoff_ms).attempts.getLast? =
          some la ∧
        (http_send_with_retry env dur timeout_ms max_retries backoff_ms).status = la.status ∧
        (http_send_with_retry env dur timeout_ms max_retries backoff_ms).resp = la.resp) ∧
    (∀ a ∈ (http_send_with_retry env dur timeout_ms max_retries backoff_ms).attempts,
      a.timeoutGiven = max 100 a.remaining ∧ 0 < a.remaining) ∧
    (∀ s ∈ (http_send_with_retry env dur timeout_ms max_retries backoff_ms).sleeps,
      s.dur = min backoff_ms s.remaining ∧ 0 < s.remaining ∧ 0 < s.dur) := by
  obtain ⟨st, rsp, nA, nS, heq, hlen, hA, hS, hdl, hres, hne⟩ :=
    retryGo_spec env dur timeout_ms backoff_ms (max_retries + 1) 0 0 Option.none [] []
  have hrun : http_send_with_retry env dur timeout_ms max_retries backoff_ms =
      ⟨st, rsp, nA, nS⟩ := by
    rw [http_send_with_retry, heq]
    simp
  rw [hrun]
  refine ⟨hlen, hdl, ?_, ?_, hA, hS⟩
  · intro hle
    have : http_send_with_retry env dur timeout_ms max_retries backoff_ms =
        ⟨408, Resp.timeout, [], []⟩ := by
      rw [http_send_with_retry, retryGo]
      simp [hle, finishLast]
    rw [hrun] at this
    refine ⟨?_, ?_, ?_⟩ <;> simp [RetryRun.mk.injEq] at this <;> tauto
  · intro hpos
    have hnanil : nA ≠ [] := hne (by omega) (by omega)
    rcases hres with ⟨hnil, _, _⟩ | ⟨pre, la, hpl, hst, hrsp⟩
    · exact absurd hnil hnanil
    · subst hpl
      exact ⟨hnanil, la, by simp, hst, hrsp⟩

/-- Witness for C2 with a concrete non-retryable oracle and positive budget:
the loop issues at least one attempt. -/
theorem http_send_with_retry_budget_witness :
    (0 : ℤ) < 1000 ∧
    (http_send_with_retry (fun _ => (500, Resp.payload 7)) (fun _ => 10)
      1000 2 100).attempts ≠ [] :=
  ⟨by norm_num,
    ((http_send_with_retry_budget (fun _ => (500, Resp.payload 7)) (fun _ => 10)
      1000 2 100).2.2.2.1 (by norm_num)).1⟩

/-- Helper for C3: the five possible write sequences of one callback
request. -/
theorem callbackWrites_cases (c : CallbackCase) :
    callbackWrites c = [4] ∨ callbackWrites c = [0] ∨ callbackWrites c = [0, 2] ∨
      callbackWrites c = [0, 1] ∨ callbackWrites c = [0, 3] := by
  rcases c with ⟨h, t, tp, d⟩
  cases h <;> cases t <;> cases tp <;> cases d <;> decide

/-- Counterexample to claim C3 as stated: after a successful callback
(state 1), a repeated whitelist-hit callback with no downstream template
commits `is_callback_sent = 0` again — the column regresses from 1 to 0
(callback.py:363 writes 0 unconditionally before dispatch). -/
theorem is_callback_sent_regresses :
    ¬ NoRegression (requestLogTrace
      [⟨true, false, true, true⟩, ⟨true, false, false, true⟩]) ∧
    (requestLogTrace [⟨true, false, true, true⟩, ⟨true, false, false, true⟩]) =
      [0, 0, 1, 0] := by
  constructor
  · decide
  · decide

/-- Claim C3 as amended: `is_callback_sent` only takes values in
`{0, 1, 2, 3, 4}`; a whitelist-miss callback writes 4; a whitelist-hit
callback first resets the column to 0 and, when it is throttled or has a
downstream template, finishes at a value in `{1, 2, 3}` — but a hit with no
template leaves the reset 0 in place, so a single callback on a fresh row
never regresses while a repeated callback can (see the counterexample). -/
theorem is_callback_sent_behaviour :
    (∀ runs : List CallbackCase, ∀ v ∈ requestLogTrace runs, v ∈ [0, 1, 2, 3, 4]) ∧
    (∀ c : CallbackCase, c.hit = false → callbackWrites c = [4]) ∧
    (∀ c : CallbackCase, c.hit = true → (callbackWrites c).head? = some 0) ∧
    (∀ c : CallbackCase, c.hit = true → c.throttled = true ∨ c.template = true →
      ∃ w, (callbackWrites c).getLast? = some w ∧ w ∈ [1, 2, 3]) ∧
    (∀ c : CallbackCase, c.hit = true → c.throttled = false → c.template = false →
      callbackWrites c = [0]) ∧
    (∀ c : CallbackCase, NoRegression (requestLogTrace [c])) := by
  refine ⟨?_, ?_, ?_, ?_, ?_, ?_⟩
  · intro runs v hv
    simp only [requestLogTrace, List.mem_cons, List.mem_flatMap] at hv
    rcases hv with rfl | ⟨c, _, hvc⟩
    · simp
    · rcases callbackWrites_cases c with h | h | h | h | h <;> rw [h] at hvc <;>
        simp at hvc ⊢ <;> tauto
  · intro c hc
    rcases c with ⟨h, t, tp, d⟩
    cases h <;> cases t <;> cases tp <;> cases d <;> revert hc <;> decide
  · intro c hc
    rcases c with ⟨h, t, tp, d⟩
    cases h <;> cases t <;> cases tp <;> cases d <;> revert hc <;> decide
  · intro c hc hor
    rcases c with ⟨h, t, tp, d⟩
    cases h <;> cases t <;> cases tp <;> cases d <;> revert hc hor <;> decide
  · intro c hc ht htp
    rcases c with ⟨h, t, tp, d⟩
    cases h <;> cases t <;> cases tp <;> cases d <;> revert hc ht htp <;> decide
  · intro c
    rcases c with ⟨h, t, tp, d⟩
    cases h <;> cases t <;> cases tp <;> cases d <;> decide

/-- Witness for C3 (amended): a whitelist-miss callback writes exactly 4. -/
theorem is_callback_sent_behaviour_witness :
    callbackWrites ⟨false, false, false, false⟩ = [4] :=
  is_callback_sent_behaviour.2.1 ⟨false, false, false, false⟩ rfl

/-- Claim C6: with global routing enabled and no `RequestLog` row for the
rid, the callback handler does not degrade gracefully — it reads the local
`routing_udm` that was never assigned (callback.py:265 assigns it only under
`if row:`, callback.py:295 reads it unconditionally) and raises `NameError`
instead of returning the normal response envelope. -/
theorem callback_missing_row_name_error (c : CallbackCase) :
    handle_upstream_callback true false c =
      Except.error PyError.nameError_routing_udm := rfl

/-- Claim C5 (the function itself is absent from `src/` and modelled from
the spec): whenever `find_matching_rule` returns a rule, `choose_route`
returns exactly that rule's `(upstream, downstream, enabled, throttle)`
(with the code's defaults), and when it returns none, `choose_route`
returns the first route's fallback tuple (or the no-routes tuple). -/
theorem find_matching_rule_agrees (udm : RoutingUdm) (routes : List RouteCfg) :
    (∀ r, find_matching_rule udm routes = some r →
      choose_route udm routes =
        (r.upstream, r.downstream, r.enabled.getD true, r.throttle.getD 0)) ∧
    (find_matching_rule udm routes = Option.none →
      choose_route udm routes =
        match routes with
        | [] => (Option.none, Option.none, false, 0)
        | first :: _ => (first.fallback_upstream, first.fallback_downstream,
            first.fallback_enabled.getD true, first.fallback_throttle.getD 0)) := by
  constructor
  · intro r hr
    cases routes with
    | nil => simp [find_matching_rule, scanRoutes] at hr
    | cons first rest =>
        unfold find_matching_rule at hr
        simp [choose_route, hr]
  · intro hr
    cases routes with
    | nil => simp [choose_route]
    | cons first rest =>
        unfold find_matching_rule at hr
        simp [choose_route, hr]

/-- Witness for C5 on a one-route, one-rule config matched by `ad_id`. -/
theorem find_matching_rule_agrees_witness :
    choose_route ⟨"", "67576"⟩
        [⟨some "ad_id",
          [⟨some "67576", some "u1", some "d1", none, none, none, none, none⟩],
          none, none, none, none⟩] =
      (some "u1", some "d1", true, 0) :=
  (find_matching_rule_agrees ⟨"", "67576"⟩
      [⟨some "ad_id",
        [⟨some "67576", some "u1", some "d1", none, none, none, none, none⟩],
        none, none, none, none⟩]).1
    ⟨some "67576", some "u1", some "d1", none, none, none, none, none⟩
    (by decide)

/-- Claim C10: `dispatch_click_job` re-runs `choose_route` on the job's ad
fields against the current config and silently drops the job — returning
`(200, route_disabled_drop)` with no upstream HTTP call and no `RequestLog`
insert — exactly when the route is now disabled or now resolves to a
(non-empty) upstream different from the job's `upstream_id`. -/
theorem dispatch_recheck_gate (render : AdapterCfg → Job → String)
    (env : ℕ → ℤ × Resp) (dur : ℕ → ℤ)
    (routes : List RouteCfg) (upstreams : List UpstreamCfg) (job : Job) :
    (dispatch_click_job render env dur routes upstreams job =
        ⟨200, DispatchMsg.route_disabled_drop, Option.none, Option.none⟩) ↔
      ((choose_route job.udm.ad routes).2.2.1 = false ∨
        ∃ s, (choose_route job.udm.ad routes).1 = some s ∧ s ≠ "" ∧
          s ≠ job.upstream_id) := by
  have hb : (!(choose_route job.udm.ad routes).2.2.1 ||
      (match (choose_route job.udm.ad routes).1 with
       | some s => decide (s ≠ "") && decide (s ≠ job.upstream_id)
       | Option.none => false)) = true ↔
      ((choose_route job.udm.ad routes).2.2.1 = false ∨
        ∃ s, (choose_route job.udm.ad routes).1 = some s ∧ s ≠ "" ∧
          s ≠ job.upstream_id) := by
    cases hcu : (choose_route job.udm.ad routes).1 <;>
      cases hen : (choose_route job.udm.ad routes).2.2.1 <;> simp
  rw [← hb]
  simp only [dispatch_click_job]
  by_cases hdrop : (!(choose_route job.udm.ad routes).2.2.1 ||
      (match (choose_route job.udm.ad routes).1 with
       | some s => decide (s ≠ "") && decide (s ≠ job.upstream_id)
       | Option.none => false)) = true
  · rw [if_pos hdrop]
    exact iff_of_true rfl hdrop
  · rw [if_neg hdrop]
    refine iff_of_false ?_ hdrop
    intro h
    rcases hu : find_upstream_config job.upstream_id upstreams with _ | ucfg
    · simp only [hu] at h
      simp at h
    · simp only [hu] at h
      rcases ha : get_adapter_config ucfg "outbound" job.event_type with _ | adapter
      · simp only [ha] at h
        simp at h
      · simp only [ha] at h
        simp at h

/-- Witness for C10: a job whose rule has since been disabled is dropped
with `(200, route_disabled_drop)`, no HTTP call and no row insert. -/
theorem dispatch_recheck_gate_witness :
    dispatch_click_job (fun _ _ => "") (fun _ => (200, Resp.payload 0)) (fun _ => 0)
        [⟨some "ad_id", [⟨some "A", some "u1", none, some false, none, none, none, none⟩],
          none, none, none, none⟩]
        [] ⟨"rid1", ⟨⟨"", "A"⟩, ""⟩, "u1", "click"⟩ =
      ⟨200, DispatchMsg.route_disabled_drop, Option.none, Option.none⟩ :=
  (dispatch_recheck_gate (fun _ _ => "") (fun _ => (200, Resp.payload 0)) (fun _ => 0)
      [⟨some "ad_id", [⟨some "A", some "u1", none, some false, none, none, none, none⟩],
        none, none, none, none⟩]
      [] ⟨"rid1", ⟨⟨"", "A"⟩, ""⟩, "u1", "click"⟩).mpr (Or.inl (by decide))

end AdRouter
